import Mathlib

/-!
Shallow embedding of `src/interest_sim.py` (loan repayment simulator).

The module's core is `simulate_interest`, which validates its inputs, then
runs a `while` loop advancing the loan balance month over month, recording
one `MonthlyResult` per month, guarding against non-convergent inputs and
against exceeding a 1000-iteration safety ceiling.

Python floats are modelled as exact rationals (`ℚ`); the Python `int`
arguments as `ℤ`/`ℕ`.  Python exceptions are modelled by an explicit error
type carried in `Except`: the `ValueError`s raised by input validation, the
`ValueError` raised by the non-convergence check, and the `RuntimeError`
raised at the iteration ceiling are distinguished — as they are in the
source — by their message and point of raise.  The `export_to_csv` /
`csv_filename` parameters only trigger file output and never affect the
returned list or the raised exceptions, so they are omitted from the
embedding of the engine.
-/

set_option maxHeartbeats 1600000

namespace LoanSim

/-- Embedding of the Python dataclass `MonthlyResult` (fields in source
order: month, interest, balance, accumulated_interest, total_paid,
interest_percentage). -/
structure MonthlyResult where
  month : ℕ
  interest : ℚ
  balance : ℚ
  accumulated_interest : ℚ
  total_paid : ℚ
  interest_percentage : ℚ
deriving Repr, DecidableEq

/-- The exceptions `simulate_interest` can raise.  In the source the first
two are `ValueError`s (input validation, non-convergence) and the last one a
`RuntimeError` (iteration ceiling); each carries the message string raised in
the source. -/
inductive SimError where
  | invalidInput (msg : String)
  | nonConvergent (msg : String)
  | iterationLimit (msg : String)
deriving Repr, DecidableEq

/-- Embedding of `calculate_monthly_interest` (src lines 21-23): the
interest for the current balance. -/
def calculate_monthly_interest (balance monthly_interest_rate : ℚ) : ℚ :=
  balance * monthly_interest_rate

/-- Embedding of `MAX_ITERATIONS = 1000` (src line 68). -/
def MAX_ITERATIONS : ℕ := 1000

theorem MAX_ITERATIONS_eq : MAX_ITERATIONS = 1000 := rfl

/-- Embedding of the `while` loop of `simulate_interest` (src lines 70-119).
State: `month_counter`, `balance`, `accumulated_interest`, `total_paid`, and
the `results` accumulated so far.  Each iteration follows the source line by
line: loop condition (line 70), payoff break (71-72), non-convergence check
(74-77), counter increment (79), interest (80), balance update (81),
accumulators (82-83), overshoot clamp (85-88), append (90-101), iteration
ceiling (103-106).  Termination is by the iteration-ceiling check: a
recursive call only happens with `month_counter + 1 ≤ MAX_ITERATIONS`. -/
def simLoop (repayment monthly_interest_rate : ℚ) (months : ℤ)
    (month_counter : ℕ) (balance accumulated_interest total_paid : ℚ)
    (results : List MonthlyResult) : Except SimError (List MonthlyResult) :=
  if months = 0 ∨ (month_counter : ℤ) < months then
    if balance ≤ 0 then
      .ok results
    else if repayment ≤ monthly_interest_rate * balance then
      .error (.nonConvergent
        "Repayment is too low to cover the monthly interest. Balance will grow indefinitely.")
    else
      let mc := month_counter + 1
      let interest := calculate_monthly_interest balance monthly_interest_rate
      let balance1 := balance + interest - repayment
      let acc1 := accumulated_interest + interest
      let paid1 := total_paid + repayment
      let paid2 := if balance1 < 0 then paid1 + balance1 else paid1
      let balance2 := if balance1 < 0 then 0 else balance1
      let res : MonthlyResult :=
        ⟨mc, interest, balance2, acc1, paid2,
          if 0 < paid2 then acc1 / paid2 * 100 else 0⟩
      if _h1000 : MAX_ITERATIONS < mc then
        .error (.iterationLimit
          "Simulation exceeded maximum iterations. Check your inputs.")
      else
        simLoop repayment monthly_interest_rate months mc balance2 acc1 paid2
          (results ++ [res])
  else
    .ok results
termination_by MAX_ITERATIONS + 1 - month_counter
decreasing_by
  simp only [MAX_ITERATIONS] at *
  omega

/-- Embedding of `simulate_interest` (src lines 26-119): input validation
(lines 50-59), state initialization (61-66), then the loop. -/
def simulate_interest (principal repayment downpayment annual_interest_rate : ℚ)
    (months : ℤ) : Except SimError (List MonthlyResult) :=
  if principal ≤ 0 then
    .error (.invalidInput "Principal must be greater than zero.")
  else if downpayment < 0 then
    .error (.invalidInput "Downpayment cannot be negative.")
  else if principal < downpayment then
    .error (.invalidInput "Downpayment cannot exceed the principal.")
  else if repayment ≤ 0 ∨ annual_interest_rate < 0 then
    .error (.invalidInput
      "Repayment must be positive and interest rate cannot be negative.")
  else
    simLoop repayment (annual_interest_rate / 12) months 0
      (principal - downpayment) 0 0 []

/-! ### One-iteration state update

The following three definitions name the values produced by one pass of the
loop body of `simLoop` (the `let`-bindings for `balance2`, `paid2` and `res`
above, with `interest = balance * monthly_interest_rate` inlined).  They are
introduced only so lemmas about one loop iteration can be stated compactly;
`simLoop_cont` below proves that they agree with the loop body. -/

/-- The loop's balance after one iteration starting from `bal`: interest is
added, the repayment subtracted, and a negative result clamped to `0`. -/
def nextBalance (rep mRate bal : ℚ) : ℚ :=
  if bal + bal * mRate - rep < 0 then 0 else bal + bal * mRate - rep

/-- The loop's `total_paid` after one iteration: the fixed repayment is
added, and on overshoot the (negative) updated balance is added back. -/
def nextPaid (rep mRate bal tp : ℚ) : ℚ :=
  if bal + bal * mRate - rep < 0 then
    tp + rep + (bal + bal * mRate - rep)
  else
    tp + rep

/-- The `MonthlyResult` appended by one iteration of the loop starting from
counter `mc`, balance `bal`, accumulated interest `acc` and total paid
`tp`. -/
def nextRecord (rep mRate : ℚ) (mc : ℕ) (bal acc tp : ℚ) : MonthlyResult :=
  ⟨mc + 1, bal * mRate, nextBalance rep mRate bal, acc + bal * mRate,
    nextPaid rep mRate bal tp,
    if 0 < nextPaid rep mRate bal tp then
      (acc + bal * mRate) / nextPaid rep mRate bal tp * 100
    else 0⟩

/-! ### Branch lemmas: one controlled unfolding of the loop per case -/

theorem simLoop_horizon {rep mRate : ℚ} {months : ℤ} {mc : ℕ}
    {bal acc tp : ℚ} {rs : List MonthlyResult}
    (h : ¬(months = 0 ∨ (mc : ℤ) < months)) :
    simLoop rep mRate months mc bal acc tp rs = .ok rs := by
  rw [simLoop.eq_def, if_neg h]

theorem simLoop_break {rep mRate : ℚ} {months : ℤ} {mc : ℕ}
    {bal acc tp : ℚ} {rs : List MonthlyResult}
    (h : bal ≤ 0) :
    simLoop rep mRate months mc bal acc tp rs = .ok rs := by
  rw [simLoop.eq_def]
  by_cases hc : months = 0 ∨ (mc : ℤ) < months
  · rw [if_pos hc, if_pos h]
  · rw [if_neg hc]

theorem simLoop_nonconv {rep mRate : ℚ} {months : ℤ} {mc : ℕ}
    {bal acc tp : ℚ} {rs : List MonthlyResult}
    (hc : months = 0 ∨ (mc : ℤ) < months)
    (hb : 0 < bal)
    (h : rep ≤ mRate * bal) :
    simLoop rep mRate months mc bal acc tp rs =
      .error (.nonConvergent
        "Repayment is too low to cover the monthly interest. Balance will grow indefinitely.") := by
  rw [simLoop.eq_def, if_pos hc, if_neg (not_le.2 hb), if_pos h]

theorem simLoop_limit {rep mRate : ℚ} {months : ℤ} {mc : ℕ}
    {bal acc tp : ℚ} {rs : List MonthlyResult}
    (hc : months = 0 ∨ (mc : ℤ) < months)
    (hb : 0 < bal)
    (h : mRate * bal < rep)
    (hmax : MAX_ITERATIONS < mc + 1) :
    simLoop rep mRate months mc bal acc tp rs =
      .error (.iterationLimit
        "Simulation exceeded maximum iterations. Check your inputs.") := by
  rw [simLoop.eq_def, if_pos hc, if_neg (not_le.2 hb), if_neg (not_le.2 h)]
  simp only [calculate_monthly_interest]
  rw [dif_pos hmax]

theorem simLoop_cont {rep mRate : ℚ} {months : ℤ} {mc : ℕ}
    {bal acc tp : ℚ} {rs : List MonthlyResult}
    (hc : months = 0 ∨ (mc : ℤ) < months)
    (hb : 0 < bal)
    (h : mRate * bal < rep)
    (hmax : mc + 1 ≤ MAX_ITERATIONS) :
    simLoop rep mRate months mc bal acc tp rs =
      simLoop rep mRate months (mc + 1) (nextBalance rep mRate bal)
        (acc + bal * mRate) (nextPaid rep mRate bal tp)
        (rs ++ [nextRecord rep mRate mc bal acc tp]) := by
  rw [simLoop.eq_def, if_pos hc, if_neg (not_le.2 hb), if_neg (not_le.2 h)]
  simp only [calculate_monthly_interest, nextBalance, nextPaid, nextRecord]
  rw [dif_neg (by omega)]

/-- Inversion for a successful run: either the loop exited immediately and
`out = rs`, or one full iteration happened and the loop continued from the
updated state. -/
theorem simLoop_ok_cases {rep mRate : ℚ} {months : ℤ} {mc : ℕ}
    {bal acc tp : ℚ} {rs out : List MonthlyResult}
    (hok : simLoop rep mRate months mc bal acc tp rs = .ok out) :
    out = rs ∨
      ((months = 0 ∨ (mc : ℤ) < months) ∧ 0 < bal ∧ mRate * bal < rep ∧
        mc + 1 ≤ MAX_ITERATIONS ∧
        simLoop rep mRate months (mc + 1) (nextBalance rep mRate bal)
          (acc + bal * mRate) (nextPaid rep mRate bal tp)
          (rs ++ [nextRecord rep mRate mc bal acc tp]) = .ok out) := by
  by_cases hc : months = 0 ∨ (mc : ℤ) < months
  · by_cases hb : bal ≤ 0
    · rw [simLoop_break hb] at hok
      exact Or.inl (Except.ok.inj hok).symm
    · push_neg at hb
      by_cases hcv : rep ≤ mRate * bal
      · rw [simLoop_nonconv hc hb hcv] at hok
        simp at hok
      · push_neg at hcv
        by_cases hmax : MAX_ITERATIONS < mc + 1
        · rw [simLoop_limit hc hb hcv hmax] at hok
          simp at hok
        · push_neg at hmax
          rw [simLoop_cont hc hb hcv hmax] at hok
          exact Or.inr ⟨hc, hb, hcv, hmax, hok⟩
  · rw [simLoop_horizon hc] at hok
    exact Or.inl (Except.ok.inj hok).symm

/-- The loop never raises the input-validation error: `invalidInput` can
only come from the validation block of `simulate_interest`. -/
theorem simLoop_ne_invalid {rep mRate : ℚ} {months : ℤ} :
    ∀ (n mc : ℕ) (bal acc tp : ℚ) (rs : List MonthlyResult) (msg : String),
      MAX_ITERATIONS + 1 - mc ≤ n →
      simLoop rep mRate months mc bal acc tp rs ≠
        .error (.invalidInput msg) := by
  intro n
  induction n with
  | zero =>
    intro mc bal acc tp rs msg hn hbad
    by_cases hc : months = 0 ∨ (mc : ℤ) < months
    · by_cases hb : bal ≤ 0
      · rw [simLoop_break hb] at hbad
        simp at hbad
      · push_neg at hb
        by_cases hcv : rep ≤ mRate * bal
        · rw [simLoop_nonconv hc hb hcv] at hbad
          simp at hbad
        · push_neg at hcv
          rw [simLoop_limit hc hb hcv (by rw [MAX_ITERATIONS_eq] at hn ⊢; omega)]
            at hbad
          simp at hbad
    · rw [simLoop_horizon hc] at hbad
      simp at hbad
  | succ n ih =>
    intro mc bal acc tp rs msg hn hbad
    by_cases hc : months = 0 ∨ (mc : ℤ) < months
    · by_cases hb : bal ≤ 0
      · rw [simLoop_break hb] at hbad
        simp at hbad
      · push_neg at hb
        by_cases hcv : rep ≤ mRate * bal
        · rw [simLoop_nonconv hc hb hcv] at hbad
          simp at hbad
        · push_neg at hcv
          by_cases hmax : MAX_ITERATIONS < mc + 1
          · rw [simLoop_limit hc hb hcv hmax] at hbad
            simp at hbad
          · push_neg at hmax
            rw [simLoop_cont hc hb hcv hmax] at hbad
            exact ih (mc + 1) _ _ _ _ msg
              (by rw [MAX_ITERATIONS_eq] at hn hmax ⊢; omega) hbad
    · rw [simLoop_horizon hc] at hbad
      simp at hbad

/-- A successful run appends at most `MAX_ITERATIONS - mc` records. -/
theorem simLoop_ok_length {rep mRate : ℚ} {months : ℤ} :
    ∀ (n mc : ℕ) (bal acc tp : ℚ) (rs out : List MonthlyResult),
      MAX_ITERATIONS + 1 - mc ≤ n →
      simLoop rep mRate months mc bal acc tp rs = .ok out →
      out.length ≤ rs.length + (MAX_ITERATIONS - mc) := by
  intro n
  induction n with
  | zero =>
    intro mc bal acc tp rs out hn hok
    rcases simLoop_ok_cases hok with h | ⟨_, _, _, hmax, _⟩
    · subst h
      exact Nat.le_add_right _ _
    · rw [MAX_ITERATIONS_eq] at hn hmax
      omega
  | succ n ih =>
    intro mc bal acc tp rs out hn hok
    rcases simLoop_ok_cases hok with h | ⟨_, _, _, hmax, hrec⟩
    · subst h
      exact Nat.le_add_right _ _
    · have hlen := ih (mc + 1) _ _ _ _ out
        (by rw [MAX_ITERATIONS_eq] at hn hmax ⊢; omega) hrec
      rw [List.length_append, List.length_singleton] at hlen
      rw [MAX_ITERATIONS_eq] at hlen hmax ⊢
      omega
/-! ### Facts about the one-iteration update -/

theorem nextBalance_nonneg (rep mRate bal : ℚ) :
    0 ≤ nextBalance rep mRate bal := by
  unfold nextBalance
  split
  · exact le_refl 0
  · next h => exact not_lt.1 h

theorem nextBalance_eq_max (rep mRate bal : ℚ) :
    nextBalance rep mRate bal = max 0 (bal + bal * mRate - rep) := by
  unfold nextBalance
  rcases lt_or_le (bal + bal * mRate - rep) 0 with h | h
  · rw [if_pos h, max_eq_left h.le]
  · rw [if_neg (not_lt.2 h), max_eq_right h]

theorem nextPaid_pos {rep mRate bal tp : ℚ} (hrep : 0 < rep)
    (hrate : 0 ≤ mRate) (hb : 0 < bal) (htp : 0 ≤ tp) :
    0 < nextPaid rep mRate bal tp := by
  have hint : 0 ≤ bal * mRate := mul_nonneg hb.le hrate
  unfold nextPaid
  split
  · linarith
  · linarith

theorem nextPaid_ge {rep mRate bal tp : ℚ} (hrep : 0 < rep)
    (hrate : 0 ≤ mRate) (hb : 0 < bal) :
    tp ≤ nextPaid rep mRate bal tp := by
  have hint : 0 ≤ bal * mRate := mul_nonneg hb.le hrate
  unfold nextPaid
  split
  · linarith
  · linarith

/-! ### Per-record invariants (for the monotonicity / safety claims) -/

/-- A record as the loop appends it: non-negative balance, positive running
total paid, and the interest percentage computed from the other two
fields. -/
def goodRec (r : MonthlyResult) : Prop :=
  0 ≤ r.balance ∧ 0 < r.total_paid ∧
    r.interest_percentage = r.accumulated_interest / r.total_paid * 100

/-- The relation that must hold between adjacent records: both running sums
are non-decreasing. -/
def monoStep (a b : MonthlyResult) : Prop :=
  a.accumulated_interest ≤ b.accumulated_interest ∧
    a.total_paid ≤ b.total_paid

theorem goodRec_nextRecord {rep mRate bal acc tp : ℚ} {mc : ℕ}
    (hrep : 0 < rep) (hrate : 0 ≤ mRate) (hb : 0 < bal) (htp : 0 ≤ tp) :
    goodRec (nextRecord rep mRate mc bal acc tp) := by
  have hpos := nextPaid_pos hrep hrate hb htp
  refine ⟨nextBalance_nonneg rep mRate bal, hpos, ?_⟩
  simp only [nextRecord]
  rw [if_pos hpos]

/-- The records invariant is preserved by any successful run of the loop:
every record of the output is `goodRec`, and the output is a
`monoStep`-chain. -/
theorem simLoop_ok_records {rep mRate : ℚ} {months : ℤ}
    (hrep : 0 < rep) (hrate : 0 ≤ mRate) :
    ∀ (n mc : ℕ) (bal acc tp : ℚ) (rs out : List MonthlyResult),
      MAX_ITERATIONS + 1 - mc ≤ n →
      0 ≤ tp →
      (∀ r ∈ rs, goodRec r) →
      List.Chain' monoStep rs →
      (∀ l ∈ rs.getLast?, l.accumulated_interest = acc ∧ l.total_paid = tp) →
      simLoop rep mRate months mc bal acc tp rs = .ok out →
      (∀ r ∈ out, goodRec r) ∧ List.Chain' monoStep out := by
  intro n
  induction n with
  | zero =>
    intro mc bal acc tp rs out hn htp hgood hchain _hlink hok
    rcases simLoop_ok_cases hok with h | ⟨_, _, _, hmax, _⟩
    · subst h
      exact ⟨hgood, hchain⟩
    · rw [MAX_ITERATIONS_eq] at hn hmax
      omega
  | succ n ih =>
    intro mc bal acc tp rs out hn htp hgood hchain hlink hok
    rcases simLoop_ok_cases hok with h | ⟨_, hb, _, hmax, hrec⟩
    · subst h
      exact ⟨hgood, hchain⟩
    · have hint : 0 ≤ bal * mRate := mul_nonneg hb.le hrate
      have hpos := nextPaid_pos hrep hrate hb htp
      refine ih (mc + 1) _ _ _ _ out
        (by rw [MAX_ITERATIONS_eq] at hn hmax ⊢; omega) hpos.le ?_ ?_ ?_ hrec
      · intro r hr
        rcases List.mem_append.1 hr with hr | hr
        · exact hgood r hr
        · rw [List.mem_singleton.1 hr]
          exact goodRec_nextRecord hrep hrate hb htp
      · rw [List.chain'_append]
        refine ⟨hchain, List.chain'_singleton _, ?_⟩
        intro x hx y hy
        rw [List.head?_cons, Option.mem_def, Option.some.injEq] at hy
        subst hy
        rcases hlink x hx with ⟨hxa, hxp⟩
        constructor
        · simp only [nextRecord]
          linarith
        · simp only [nextRecord]
          rw [hxp]
          exact nextPaid_ge hrep hrate hb
      · intro l hl
        rw [List.getLast?_concat, Option.mem_def, Option.some.injEq] at hl
        subst hl
        exact ⟨rfl, rfl⟩

/-! ### The month-over-month recurrence of the recorded ledger (claim C1) -/

/-- The ledger recurrence `chainFrom rep mRate b rs`: starting from a balance `b` before the first
record, every record's `interest` is the prior balance times the monthly
rate, and every record's `balance` is the prior balance plus that interest
minus the repayment, floored at `0`; each record's balance is the prior
balance of the next. -/
def chainFrom (rep mRate : ℚ) : ℚ → List MonthlyResult → Prop
  | _, [] => True
  | b, r :: rest =>
    r.interest = b * mRate ∧
      r.balance = max 0 (b + r.interest - rep) ∧
      chainFrom rep mRate r.balance rest

/-- Any successful run appends a suffix of records chained by the
amortization recurrence from the entry balance. -/
theorem simLoop_ok_chain {rep mRate : ℚ} {months : ℤ} :
    ∀ (n mc : ℕ) (bal acc tp : ℚ) (rs out : List MonthlyResult),
      MAX_ITERATIONS + 1 - mc ≤ n →
      simLoop rep mRate months mc bal acc tp rs = .ok out →
      ∃ rs2, out = rs ++ rs2 ∧ chainFrom rep mRate bal rs2 := by
  intro n
  induction n with
  | zero =>
    intro mc bal acc tp rs out hn hok
    rcases simLoop_ok_cases hok with h | ⟨_, _, _, hmax, _⟩
    · exact ⟨[], by simp [h], trivial⟩
    · rw [MAX_ITERATIONS_eq] at hn hmax
      omega
  | succ n ih =>
    intro mc bal acc tp rs out hn hok
    rcases simLoop_ok_cases hok with h | ⟨_, hb, _, hmax, hrec⟩
    · exact ⟨[], by simp [h], trivial⟩
    · rcases ih (mc + 1) _ _ _ _ out
        (by rw [MAX_ITERATIONS_eq] at hn hmax ⊢; omega) hrec with ⟨rs3, hout, hch⟩
      refine ⟨nextRecord rep mRate mc bal acc tp :: rs3, ?_, ?_, ?_, ?_⟩
      · rw [hout, List.append_assoc, List.singleton_append]
      · simp only [nextRecord]
      · simp only [nextRecord]
        exact nextBalance_eq_max rep mRate bal
      · simp only [nextRecord]
        exact hch

/-! ### Payoff analysis (claim C2)

`iterBal rep mRate b k` is the balance after `k` months of the pure
amortization recurrence of the loop body — interest added, repayment
subtracted, no clamping — starting from balance `b`.  "The loan pays off at
month `N`" is expressed as: the first `N - 1` of these balances are positive
and the `N`-th is `≤ 0`. -/

def iterBal (rep mRate b : ℚ) : ℕ → ℚ
  | 0 => b
  | k + 1 => iterBal rep mRate b k + iterBal rep mRate b k * mRate - rep

theorem iterBal_step_comm (rep mRate b : ℚ) (k : ℕ) :
    iterBal rep mRate (b + b * mRate - rep) k = iterBal rep mRate b (k + 1) := by
  induction k with
  | zero => rfl
  | succ k ih =>
    show iterBal rep mRate (b + b * mRate - rep) k +
        iterBal rep mRate (b + b * mRate - rep) k * mRate - rep = _
    rw [ih]
    rfl

/-- If the pure recurrence from the current balance stays positive for
`k - 1` more months and is `≤ 0` after `k` months, and the horizon and the
iteration ceiling leave room for `k` more iterations, then the loop returns
successfully, appending exactly the months `mc+1, …, mc+k`, the last one
with balance `0`. -/
theorem simLoop_reaches_payoff {rep mRate : ℚ} {months : ℤ}
    (hrate : 0 ≤ mRate) :
    ∀ (k mc : ℕ) (bal acc tp : ℚ) (rs : List MonthlyResult),
      mRate * bal < rep →
      (∀ j, j < k → 0 < iterBal rep mRate bal j) →
      iterBal rep mRate bal k ≤ 0 →
      mc + k ≤ MAX_ITERATIONS →
      (months = 0 ∨ (mc : ℤ) + k ≤ months) →
      ∃ rs2, simLoop rep mRate months mc bal acc tp rs = .ok (rs ++ rs2) ∧
        rs2.map (fun r => r.month) = List.range' (mc + 1) k ∧
        ∀ l ∈ rs2.getLast?, l.balance = 0 := by
  intro k
  induction k with
  | zero =>
    intro mc bal acc tp rs _hconv _hpos hk _hmax _hm
    refine ⟨[], ?_, by simp, by simp⟩
    rw [List.append_nil]
    exact simLoop_break hk
  | succ n ih =>
    intro mc bal acc tp rs hconv hpos hk hmax hm
    have hb : 0 < bal := hpos 0 (Nat.succ_pos n)
    have hc : months = 0 ∨ (mc : ℤ) < months := by
      rcases hm with hm | hm
      · exact Or.inl hm
      · right
        omega
    have hmax1 : mc + 1 ≤ MAX_ITERATIONS := by
      rw [MAX_ITERATIONS_eq] at hmax ⊢
      omega
    rw [simLoop_cont hc hb hconv hmax1]
    rcases n with _ | n
    · -- the loan pays off in this very month
      have h1 : bal + bal * mRate - rep ≤ 0 := hk
      have hbal2 : nextBalance rep mRate bal = 0 := by
        rw [nextBalance_eq_max, max_eq_left h1]
      rw [hbal2, simLoop_break (le_refl 0)]
      refine ⟨[nextRecord rep mRate mc bal acc tp], rfl, ?_, ?_⟩
      · simp [nextRecord]
      · intro l hl
        rw [List.getLast?_singleton, Option.mem_def, Option.some.injEq] at hl
        subst hl
        simp only [nextRecord]
        exact hbal2
    · -- at least one further month remains after this one
      have h1 : 0 < bal + bal * mRate - rep := hpos 1 (by omega)
      have hbal2 : nextBalance rep mRate bal = bal + bal * mRate - rep := by
        unfold nextBalance
        rw [if_neg (not_lt.2 h1.le)]
      have hle : bal + bal * mRate - rep ≤ bal := by linarith
      have hconv2 : mRate * (bal + bal * mRate - rep) < rep :=
        lt_of_le_of_lt (mul_le_mul_of_nonneg_left hle hrate) hconv
      have hpos2 : ∀ j, j < n + 1 → 0 < iterBal rep mRate (bal + bal * mRate - rep) j := by
        intro j hj
        rw [iterBal_step_comm]
        exact hpos (j + 1) (by omega)
      have hk2 : iterBal rep mRate (bal + bal * mRate - rep) (n + 1) ≤ 0 := by
        rw [iterBal_step_comm]
        exact hk
      rcases ih (mc + 1) (bal + bal * mRate - rep) (acc + bal * mRate)
          (nextPaid rep mRate bal tp)
          (rs ++ [nextRecord rep mRate mc bal acc tp])
          hconv2 hpos2 hk2
          (by rw [MAX_ITERATIONS_eq] at hmax ⊢; omega)
          (by rcases hm with hm | hm
              · exact Or.inl hm
              · right
                push_cast at hm ⊢
                omega) with ⟨rs3, hok, hmap, hlast⟩
      rw [hbal2, hok]
      refine ⟨nextRecord rep mRate mc bal acc tp :: rs3, ?_, ?_, ?_⟩
      · rw [List.append_assoc, List.singleton_append]
      · rw [List.map_cons, hmap]
        simp only [nextRecord]
        rfl
      · have hne : rs3 ≠ [] := by
          intro hnil
          rw [hnil] at hmap
          simp at hmap
        rcases rs3 with _ | ⟨a, l⟩
        · exact absurd rfl hne
        · intro x hx
          rw [List.getLast?_cons_cons] at hx
          exact hlast x hx

/-! ### From `simulate_interest` to the loop -/

/-- A successful `simulate_interest` run passed validation, so the
preconditions hold and the result is the result of the loop from the
initial state. -/
theorem simulate_ok_simLoop {p r d a : ℚ} {m : ℤ} {rs : List MonthlyResult}
    (hok : simulate_interest p r d a m = .ok rs) :
    0 < p ∧ 0 ≤ d ∧ d ≤ p ∧ 0 < r ∧ 0 ≤ a ∧
      simLoop r (a / 12) m 0 (p - d) 0 0 [] = .ok rs := by
  unfold simulate_interest at hok
  by_cases h1 : p ≤ 0
  · rw [if_pos h1] at hok
    simp at hok
  · rw [if_neg h1] at hok
    by_cases h2 : d < 0
    · rw [if_pos h2] at hok
      simp at hok
    · rw [if_neg h2] at hok
      by_cases h3 : p < d
      · rw [if_pos h3] at hok
        simp at hok
      · rw [if_neg h3] at hok
        by_cases h4 : r ≤ 0 ∨ a < 0
        · rw [if_pos h4] at hok
          simp at hok
        · rw [if_neg h4] at hok
          push_neg at h1 h2 h3 h4
          exact ⟨h1, h2, h3, h4.1, h4.2, hok⟩

/-! ### Concrete evaluation helpers for witnesses -/

/-- A one-month run with non-zero interest: principal 100, repayment 200,
annual rate 12 (monthly rate 1).  Month 1 accrues interest 100 and the
payment retires the whole balance exactly. -/
theorem run_one_month :
    simulate_interest 100 200 0 12 0 =
      .ok [⟨1, 100, 0, 100, 200, 50⟩] := by
  rw [simulate_interest, if_neg (by norm_num), if_neg (by norm_num),
    if_neg (by norm_num), if_neg (by norm_num)]
  rw [simLoop_cont (Or.inl rfl) (by norm_num) (by norm_num)
    (by rw [MAX_ITERATIONS_eq]; norm_num)]
  norm_num [nextBalance, nextPaid, nextRecord]
  rw [simLoop_break (le_refl 0)]

/-- A two-month zero-interest run with a final-month overshoot: principal
100, repayment 60.  Month 2 owes only 40, so `total_paid` rises by 40. -/
theorem run_no_interest :
    simulate_interest 100 60 0 0 0 =
      .ok [⟨1, 0, 40, 0, 60, 0⟩, ⟨2, 0, 0, 0, 100, 0⟩] := by
  rw [simulate_interest, if_neg (by norm_num), if_neg (by norm_num),
    if_neg (by norm_num), if_neg (by norm_num)]
  rw [simLoop_cont (Or.inl rfl) (by norm_num) (by norm_num)
    (by rw [MAX_ITERATIONS_eq]; norm_num)]
  norm_num [nextBalance, nextPaid, nextRecord]
  rw [simLoop_cont (Or.inl rfl) (by norm_num) (by norm_num)
    (by rw [MAX_ITERATIONS_eq]; norm_num)]
  norm_num [nextBalance, nextPaid, nextRecord]
  rw [simLoop_break (le_refl 0)]

/-! ### Claim theorems -/

/-- C1: For every simulated month, the recorded interest equals the balance
before that month times `annualInterestRate / 12`, and the balance after the
month equals the prior balance plus that interest minus the repayment,
floored at `0` (the balance before the first month being
`principal - downpayment`, and each record's balance the prior balance of
the next). -/
theorem interest_and_balance_recurrence
    (principal repayment downpayment annual_interest_rate : ℚ) (months : ℤ)
    (rs : List MonthlyResult)
    (hok : simulate_interest principal repayment downpayment
      annual_interest_rate months = .ok rs) :
    chainFrom repayment (annual_interest_rate / 12)
      (principal - downpayment) rs := by
  rcases simulate_ok_simLoop hok with ⟨_, _, _, _, _, hloop⟩
  rcases simLoop_ok_chain (MAX_ITERATIONS + 1) 0 _ _ _ [] rs
    (le_refl _) hloop with ⟨rs2, hout, hch⟩
  rw [List.nil_append] at hout
  rw [hout]
  exact hch

theorem interest_and_balance_recurrence_witness :
    chainFrom 200 (12 / 12) (100 - 0)
      [⟨1, 100, 0, 100, 200, 50⟩] :=
  interest_and_balance_recurrence 100 200 0 12 0 _ run_one_month

/-- C3: On every iteration (at any month counter, not only the first), if
the fixed repayment is at most the monthly rate times the current balance —
the equality case included — the loop fails with the non-convergence error,
returning no results. -/
theorem nonconvergence_every_iteration
    (repayment monthly_interest_rate : ℚ) (months : ℤ) (month_counter : ℕ)
    (balance accumulated_interest total_paid : ℚ)
    (results : List MonthlyResult)
    (hloop : months = 0 ∨ (month_counter : ℤ) < months)
    (hbal : 0 < balance)
    (h : repayment ≤ monthly_interest_rate * balance) :
    simLoop repayment monthly_interest_rate months month_counter balance
      accumulated_interest total_paid results =
      .error (.nonConvergent
        "Repayment is too low to cover the monthly interest. Balance will grow indefinitely.") :=
  simLoop_nonconv hloop hbal h

theorem nonconvergence_every_iteration_witness :
    simLoop 1 (1 / 100) 0 5 100 0 0 [] =
      .error (.nonConvergent
        "Repayment is too low to cover the monthly interest. Balance will grow indefinitely.") :=
  nonconvergence_every_iteration 1 (1 / 100) 0 5 100 0 0 []
    (Or.inl rfl) (by norm_num) (by norm_num)

/-- C4: `simulate_interest` fails with an input-validation error — without
entering the loop, hence with no partial results — if and only if one of the
preconditions is violated: `principal ≤ 0`, `downpayment < 0`,
`downpayment > principal`, `repayment ≤ 0`, or `annual_interest_rate < 0`.
(The loop itself never produces an `invalidInput` error.) -/
theorem invalid_input_iff_precondition_violated
    (p r d a : ℚ) (m : ℤ) :
    (∃ msg, simulate_interest p r d a m = .error (.invalidInput msg)) ↔
      (p ≤ 0 ∨ d < 0 ∨ p < d ∨ r ≤ 0 ∨ a < 0) := by
  unfold simulate_interest
  by_cases h1 : p ≤ 0
  · rw [if_pos h1]
    simp [h1]
  · rw [if_neg h1]
    by_cases h2 : d < 0
    · rw [if_pos h2]
      simp [h2]
    · rw [if_neg h2]
      by_cases h3 : p < d
      · rw [if_pos h3]
        simp [h3]
      · rw [if_neg h3]
        by_cases h4 : r ≤ 0 ∨ a < 0
        · rw [if_pos h4]
          exact iff_of_true ⟨_, rfl⟩ (by tauto)
        · rw [if_neg h4]
          constructor
          · rintro ⟨msg, hmsg⟩
            exact absurd hmsg
              (simLoop_ne_invalid (MAX_ITERATIONS + 1) 0 _ _ _ _ msg (le_refl _))
          · intro hviol
            exfalso
            push_neg at h1 h2 h3 h4
            rcases hviol with h | h | h | h | h
            · exact absurd h (not_le.2 h1)
            · exact absurd h (not_lt.2 h2)
            · exact absurd h (not_lt.2 h3)
            · exact absurd h (not_le.2 h4.1)
            · exact absurd h (not_lt.2 h4.2)

/-- C5: (1) every successfully returned sequence has at most
`MAX_ITERATIONS = 1000` records; (2) whenever the incremented month counter
would exceed the ceiling on an iteration that runs, the loop fails with the
non-termination error instead of returning results; (3) the simulation
always terminates: it returns a result list or an error (`simLoop` is a
total function, so this is witnessed by a case split). -/
theorem iteration_ceiling :
    (∀ (p r d a : ℚ) (m : ℤ) (rs : List MonthlyResult),
        simulate_interest p r d a m = .ok rs → rs.length ≤ MAX_ITERATIONS) ∧
    (∀ (rep mRate : ℚ) (months : ℤ) (mc : ℕ) (bal acc tp : ℚ)
        (rs : List MonthlyResult),
        (months = 0 ∨ (mc : ℤ) < months) → 0 < bal → mRate * bal < rep →
        MAX_ITERATIONS ≤ mc →
        simLoop rep mRate months mc bal acc tp rs =
          .error (.iterationLimit
            "Simulation exceeded maximum iterations. Check your inputs.")) ∧
    (∀ (p r d a : ℚ) (m : ℤ),
        (∃ rs, simulate_interest p r d a m = .ok rs) ∨
        (∃ e, simulate_interest p r d a m = .error e)) := by
  refine ⟨?_, ?_, ?_⟩
  · intro p r d a m rs hok
    rcases simulate_ok_simLoop hok with ⟨_, _, _, _, _, hloop⟩
    have hlen := simLoop_ok_length (MAX_ITERATIONS + 1) 0 _ _ _ [] rs
      (le_refl _) hloop
    simpa using hlen
  · intro rep mRate months mc bal acc tp rs hc hb h hmc
    exact simLoop_limit hc hb h (by rw [MAX_ITERATIONS_eq] at hmc ⊢; omega)
  · intro p r d a m
    cases hE : simulate_interest p r d a m with
    | ok rs => exact Or.inl ⟨rs, rfl⟩
    | error e => exact Or.inr ⟨e, rfl⟩

theorem iteration_ceiling_witness :
    simLoop 100 0 0 MAX_ITERATIONS 50 0 0 [] =
      .error (.iterationLimit
        "Simulation exceeded maximum iterations. Check your inputs.") :=
  iteration_ceiling.2.1 100 0 0 MAX_ITERATIONS 50 0 0 []
    (Or.inl rfl) (by norm_num) (by norm_num) (le_refl _)

/-- C2: For every input satisfying the preconditions, with
`repayment > (annualInterestRate/12) * (principal - downpayment)`, whose
loan pays off at some month `N` within the 1000-iteration ceiling (the pure
recurrence `iterBal` stays positive for the first `N - 1` months and is
`≤ 0` at month `N ≤ 1000`, with the horizon leaving room for `N` months),
`simulate_interest` returns a non-empty sequence whose final record has
balance `0` and whose month fields are exactly `1, 2, …, N` with no gaps. -/
theorem payoff_run_complete
    (principal repayment downpayment annual_interest_rate : ℚ)
    (months : ℤ) (N : ℕ)
    (hp : 0 < principal) (hd : 0 ≤ downpayment) (hdp : downpayment ≤ principal)
    (hr : 0 < repayment) (ha : 0 ≤ annual_interest_rate)
    (hconv : annual_interest_rate / 12 * (principal - downpayment) < repayment)
    (hN1 : 1 ≤ N) (hNmax : N ≤ MAX_ITERATIONS)
    (hNm : months = 0 ∨ (N : ℤ) ≤ months)
    (hpos : ∀ j, j < N →
      0 < iterBal repayment (annual_interest_rate / 12)
        (principal - downpayment) j)
    (hpay : iterBal repayment (annual_interest_rate / 12)
      (principal - downpayment) N ≤ 0) :
    ∃ rs, simulate_interest principal repayment downpayment
        annual_interest_rate months = .ok rs ∧
      rs ≠ [] ∧
      rs.map (fun r => r.month) = List.range' 1 N ∧
      ∃ l, rs.getLast? = some l ∧ l.balance = 0 := by
  rw [simulate_interest, if_neg (not_le.2 hp), if_neg (not_lt.2 hd),
    if_neg (not_lt.2 hdp), if_neg (by push_neg; exact ⟨hr, ha⟩)]
  have hrate : (0 : ℚ) ≤ annual_interest_rate / 12 :=
    div_nonneg ha (by norm_num)
  rcases simLoop_reaches_payoff hrate N 0 (principal - downpayment) 0 0 []
      hconv hpos hpay (by simpa using hNmax)
      (by rcases hNm with h | h
          · exact Or.inl h
          · right
            simpa using h) with ⟨rs2, hok, hmap, hlast⟩
  rw [List.nil_append] at hok
  have hlen : rs2.length = N := by
    have := congrArg List.length hmap
    rwa [List.length_map, List.length_range'] at this
  have hne : rs2 ≠ [] := by
    intro hnil
    rw [hnil, List.length_nil] at hlen
    omega
  have hsome := List.getLast?_isSome.2 hne
  rcases Option.isSome_iff_exists.1 hsome with ⟨l, hl⟩
  exact ⟨rs2, hok, hne, hmap, l, hl, hlast l hl⟩

theorem payoff_run_complete_witness :
    ∃ rs, simulate_interest 100 200 0 12 0 = .ok rs ∧
      rs ≠ [] ∧
      rs.map (fun r => r.month) = List.range' 1 1 ∧
      ∃ l, rs.getLast? = some l ∧ l.balance = 0 :=
  payoff_run_complete 100 200 0 12 0 1 (by norm_num) (by norm_num)
    (by norm_num) (by norm_num) (by norm_num) (by norm_num)
    (le_refl 1) (by rw [MAX_ITERATIONS_eq]; norm_num) (Or.inl rfl)
    (by intro j hj
        interval_cases j
        norm_num [iterBal])
    (by norm_num [iterBal])

/-- C6: Whenever the updated balance goes negative (final-month overshoot),
`total_paid` is adjusted by adding the negative balance and the balance is
clamped to `0`, so that month's `total_paid` increment equals exactly the
prior balance plus that month's interest — what was actually owed — rather
than the nominal repayment. -/
theorem final_month_overshoot_adjustment
    (rep mRate : ℚ) (months : ℤ) (mc : ℕ) (bal acc tp : ℚ)
    (rs : List MonthlyResult)
    (hc : months = 0 ∨ (mc : ℤ) < months)
    (hb : 0 < bal)
    (hconv : mRate * bal < rep)
    (hmax : mc + 1 ≤ MAX_ITERATIONS)
    (hover : bal + calculate_monthly_interest bal mRate - rep < 0) :
    ∃ res, simLoop rep mRate months mc bal acc tp rs = .ok (rs ++ [res]) ∧
      res.balance = 0 ∧
      res.interest = calculate_monthly_interest bal mRate ∧
      res.total_paid = tp + (bal + calculate_monthly_interest bal mRate) := by
  have hov : bal + bal * mRate - rep < 0 := by
    simpa [calculate_monthly_interest] using hover
  have hbal2 : nextBalance rep mRate bal = 0 := by
    unfold nextBalance
    rw [if_pos hov]
  rw [simLoop_cont hc hb hconv hmax, hbal2, simLoop_break (le_refl 0)]
  refine ⟨nextRecord rep mRate mc bal acc tp, rfl, ?_, ?_, ?_⟩
  · simp only [nextRecord]
    exact hbal2
  · simp only [nextRecord, calculate_monthly_interest]
  · simp only [nextRecord, nextPaid, calculate_monthly_interest]
    rw [if_pos hov]
    ring

theorem final_month_overshoot_adjustment_witness :
    ∃ res, simLoop 100 0 0 0 5 0 0 [] = .ok ([] ++ [res]) ∧
      res.balance = 0 ∧
      res.interest = calculate_monthly_interest 5 0 ∧
      res.total_paid = 0 + (5 + calculate_monthly_interest 5 0) :=
  final_month_overshoot_adjustment 100 0 0 0 5 0 0 []
    (Or.inl rfl) (by norm_num) (by norm_num)
    (by rw [MAX_ITERATIONS_eq]; norm_num)
    (by norm_num [calculate_monthly_interest])

/-- C7: Every result sequence returned by `simulate_interest` has
`balance ≥ 0` in every record, and for every pair of adjacent records both
`accumulated_interest` and `total_paid` are non-decreasing. -/
theorem balance_nonneg_and_monotone
    (p r d a : ℚ) (m : ℤ) (rs : List MonthlyResult)
    (hok : simulate_interest p r d a m = .ok rs) :
    (∀ x ∈ rs, 0 ≤ x.balance) ∧ List.Chain' monoStep rs := by
  rcases simulate_ok_simLoop hok with ⟨_, _, _, hr, ha, hloop⟩
  have hrate : (0 : ℚ) ≤ a / 12 := div_nonneg ha (by norm_num)
  have hmain := simLoop_ok_records hr hrate (MAX_ITERATIONS + 1) 0 _ _ _ [] rs
    (le_refl _) (le_refl 0) (by simp) List.chain'_nil (by simp) hloop
  exact ⟨fun x hx => (hmain.1 x hx).1, hmain.2⟩

theorem balance_nonneg_and_monotone_witness :
    (∀ x ∈ ([⟨1, 0, 40, 0, 60, 0⟩, ⟨2, 0, 0, 0, 100, 0⟩] :
        List MonthlyResult), 0 ≤ x.balance) ∧
      List.Chain' monoStep
        [⟨1, 0, 40, 0, 60, 0⟩, ⟨2, 0, 0, 0, 100, 0⟩] :=
  balance_nonneg_and_monotone 100 60 0 0 0 _ run_no_interest

/-- C8: `simulate_interest` is a pure, deterministic function of the loan
parameters: equal principal, repayment, downpayment, annual rate and months
yield the identical result (the same list or the same failure). -/
theorem simulate_deterministic
    (p₁ r₁ d₁ a₁ : ℚ) (m₁ : ℤ) (p₂ r₂ d₂ a₂ : ℚ) (m₂ : ℤ)
    (hp : p₁ = p₂) (hr : r₁ = r₂) (hd : d₁ = d₂) (ha : a₁ = a₂)
    (hm : m₁ = m₂) :
    simulate_interest p₁ r₁ d₁ a₁ m₁ = simulate_interest p₂ r₂ d₂ a₂ m₂ := by
  rw [hp, hr, hd, ha, hm]

theorem simulate_deterministic_witness :
    simulate_interest 100 60 0 0 12 = simulate_interest 100 60 0 0 12 :=
  simulate_deterministic 100 60 0 0 12 100 60 0 0 12 rfl rfl rfl rfl rfl

/-- C9: With the other preconditions satisfied and the downpayment equal to
the principal, `simulate_interest` raises no error and returns the empty
sequence: the starting balance is `0`, so the loop breaks on entry without
producing a record. -/
theorem full_downpayment_empty_run
    (p r d a : ℚ) (m : ℤ)
    (hp : 0 < p) (hr : 0 < r) (ha : 0 ≤ a) (hd : d = p) :
    simulate_interest p r d a m = .ok [] := by
  rw [simulate_interest, if_neg (not_le.2 hp),
    if_neg (by rw [hd]; exact not_lt.2 hp.le),
    if_neg (by rw [hd]; exact lt_irrefl p),
    if_neg (by push_neg; exact ⟨hr, ha⟩)]
  refine simLoop_break ?_
  rw [hd, sub_self]

theorem full_downpayment_empty_run_witness :
    simulate_interest 100 50 100 (7 / 100) 12 = .ok [] :=
  full_downpayment_empty_run 100 50 100 (7 / 100) 12
    (by norm_num) (by norm_num) (by norm_num) rfl

/-- C10: In every record of a returned sequence, `total_paid` is strictly
positive, and consequently `interest_percentage` always equals
`accumulated_interest / total_paid * 100` — the guarded else-branch
yielding `0` for a zero `total_paid` is never taken. -/
theorem total_paid_positive_in_records
    (p r d a : ℚ) (m : ℤ) (rs : List MonthlyResult)
    (hok : simulate_interest p r d a m = .ok rs) :
    ∀ x ∈ rs, 0 < x.total_paid ∧
      x.interest_percentage = x.accumulated_interest / x.total_paid * 100 := by
  rcases simulate_ok_simLoop hok with ⟨_, _, _, hr, ha, hloop⟩
  have hrate : (0 : ℚ) ≤ a / 12 := div_nonneg ha (by norm_num)
  have hmain := simLoop_ok_records hr hrate (MAX_ITERATIONS + 1) 0 _ _ _ [] rs
    (le_refl _) (le_refl 0) (by simp) List.chain'_nil (by simp) hloop
  exact fun x hx => ⟨(hmain.1 x hx).2.1, (hmain.1 x hx).2.2⟩

theorem total_paid_positive_in_records_witness :
    0 < (⟨1, 100, 0, 100, 200, 50⟩ : MonthlyResult).total_paid ∧
      (⟨1, 100, 0, 100, 200, 50⟩ : MonthlyResult).interest_percentage =
        (⟨1, 100, 0, 100, 200, 50⟩ : MonthlyResult).accumulated_interest /
          (⟨1, 100, 0, 100, 200, 50⟩ : MonthlyResult).total_paid * 100 :=
  total_paid_positive_in_records 100 200 0 12 0 _ run_one_month
    ⟨1, 100, 0, 100, 200, 50⟩ (List.mem_singleton_self _)

end LoanSim
